import Mathlib

/-!
Verification of the NWB-process trial-filtering pipeline.

Shallow embedding of the two source files:

* `Data_cleaner.py` — `get_correct_trials` / `get_incorrect_trials`
  (session filter, sort by `trialNum`, contiguity validation, reindex to
  `trialNum - 1`, outcome selection) and `get_correct_df` /
  `get_incorrect_df` (the 27-session aggregation loop).
* `cal_FR.py` — `cal_FR` (windowed firing rate of a binned spike train).

Modelling conventions:

* A pandas DataFrame row is a record; a table is a `List` of records in
  storage order.  Boolean-mask indexing (`data[data['session'] == s]`) is
  pandas-documented to return a new frame, so it is embedded as `List.filter`
  on the value.  Labels of the unit table are its default `RangeIndex`, so
  label iteration over a session slice is embedded as positional iteration.
* Numpy arrays (`spkMtx` cells) are mutable objects shared by reference:
  they live in an explicit store (`Heap`) and unit rows hold a reference
  (`Nat` index) into it.  Numpy fancy indexing allocates a fresh array and
  is embedded as an allocation in the store; `df.at[ind, 'spkMtx'] = m`
  replaces a cell of the working frame and is embedded as a functional
  update of the working slice.
* `print` diagnostics become values of the inductive type `Warning`,
  collected in order of emission.
* Python numbers are embedded as `Int`/`Rat` (exact arithmetic).
* Fallible indexing (`iloc` / fancy indexing raising `IndexError`) is
  embedded in `Except String`.
* `sort_values(by='trialNum')` is embedded as an insertion sort on the
  `trialNum` key.  Every theorem below that involves the sort either
  assumes strictly increasing keys (where any correct sort agrees) or
  states facts that depend only on the sorted key sequence, so no
  tie-breaking behaviour of the embedding is ever exploited.
-/

/-- A row of the trial table: `session`, `trialNum`, `correct` columns
(`Data_cleaner.py` expects exactly these). -/
structure TrialRow where
  session : String
  trialNum : Int
  correct : Int
deriving DecidableEq

/-- The trial table, in storage order. -/
abbrev TrialTable := List TrialRow

/-- A spike matrix: one slice of binned spike counts per trial along the
trial axis. -/
abbrev SpkMtx := List (List Int)

/-- The store of numpy arrays referenced by `spkMtx` cells. -/
abbrev Heap := List SpkMtx

/-- A row of the unit table: `session` column plus the `spkMtx` cell, the
latter a reference into the array store. -/
structure UnitRow where
  session : String
  spkMtx : Nat
deriving DecidableEq

/-- The unit table, in storage order. -/
abbrev UnitTable := List UnitRow

/-- One diagnostic message per `print` site in the source, distinguished
structurally. -/
inductive Warning where
  | noData (session : String)
  | badStart (session : String) (first : Int)
  | nonContiguous (session : String)
  | startGeEnd (start_time end_time : Nat)
  | emptyWindow
deriving DecidableEq

/-- `orderedInsertTrial a l` inserts `a` into `l` before the first row whose
`trialNum` is not smaller; the building block of the embedded
`sort_values(by='trialNum')`. -/
def orderedInsertTrial (a : TrialRow) : List TrialRow → List TrialRow
  | [] => [a]
  | b :: l => if a.trialNum ≤ b.trialNum then a :: b :: l else b :: orderedInsertTrial a l

/-- Embedding of `session_data.sort_values(by='trialNum')`. -/
def sortByTrialNum : List TrialRow → List TrialRow
  | [] => []
  | b :: l => orderedInsertTrial b (sortByTrialNum l)

/-- Embedding of `np.all(np.diff(trial_nums) == 1)`: every adjacent
difference of the list is exactly 1. -/
def contiguousB : List Int → Bool
  | a :: b :: rest => (b - a == 1) && contiguousB (b :: rest)
  | _ => true

/-- The diagnostics of step 3 of `get_correct_trials` /
`get_incorrect_trials`: the non-1-start warning followed by the single
non-contiguity warning, each emitted at most once. -/
def trialWarns (session_name : String) (trialNums : List Int) : List Warning :=
  (match trialNums with
   | [] => ([] : List Warning)
   | t :: _ => if t ≠ 1 then [Warning.badStart session_name t] else []) ++
  (if trialNums.length > 1 && !(contiguousB trialNums) then
    [Warning.nonContiguous session_name]
   else [])

/-- Steps 4–6 of the selectors: reindex the sorted rows by `trialNum - 1`,
keep the rows whose `correct` column equals `target`, return the new index. -/
def trialKeys (target : Int) (sorted_data : List TrialRow) : List Int :=
  (sorted_data.filter (fun r => r.correct == target)).map (fun r => r.trialNum - 1)

/-- Common body of `get_correct_trials` (target = 1) and
`get_incorrect_trials` (target = 0); the two Python functions are verbatim
copies of each other except for the comparison constant. -/
def getTrialsBy (target : Int) (data : TrialTable) (session_name : String) :
    List Int × List Warning :=
  let session_data := data.filter (fun r => r.session == session_name)
  if session_data.isEmpty then
    ([], [Warning.noData session_name])
  else
    let sorted_data := sortByTrialNum session_data
    (trialKeys target sorted_data,
     trialWarns session_name (sorted_data.map (fun r => r.trialNum)))

/-- Embedding of `Data_cleaner.get_correct_trials`. -/
def get_correct_trials (data : TrialTable) (session_name : String) :
    List Int × List Warning :=
  getTrialsBy 1 data session_name

/-- Embedding of `Data_cleaner.get_incorrect_trials`. -/
def get_incorrect_trials (data : TrialTable) (session_name : String) :
    List Int × List Warning :=
  getTrialsBy 0 data session_name

/-- Embedding of `cal_FR.cal_FR`.  The slice `data[start_time:end_time]`
for natural indices is `(data.drop start_time).take (end_time - start_time)`;
the source's default `bin_size_ms=1.0` is passed explicitly by callers. -/
def cal_FR (data : List Rat) (start_time end_time : Nat) (bin_size_ms : Rat) :
    Rat × List Warning :=
  let spike_window := (data.drop start_time).take (end_time - start_time)
  let spike_count := spike_window.sum
  let num_bins := spike_window.length
  if num_bins = 0 then
    if start_time ≥ end_time then
      (0, [Warning.startGeEnd start_time end_time])
    else
      (0, [Warning.emptyWindow])
  else
    let duration_ms := (num_bins : Rat) * bin_size_ms
    let duration_sec := duration_ms / 1000
    (spike_count / duration_sec, [])

/-- Claim C6, as written by the spec, is false at its own concrete example:
the slice `[1,0,1,1]` sums to 3, not 2, so the code returns 75 Hz where the
claim demands 50.0. -/
theorem c6_example_is_75_not_50 :
    (cal_FR [1, 0, 1, 1, 0] 0 4 10).fst = 75 ∧ ¬ (cal_FR [1, 0, 1, 1, 0] 0 4 10).fst = 50 := by
  have h75 : (cal_FR [1, 0, 1, 1, 0] 0 4 10).fst = 75 := by
    unfold cal_FR
    norm_num
  refine ⟨h75, ?_⟩
  rw [h75]
  norm_num

/-- Claim C6 (amended): on a non-empty slice, `cal_FR` returns the sum of
the sliced elements divided by `actual sliced length * bin_size_ms / 1000`,
using the actual number of sliced elements; at the spec's concrete example
the rate is 75 Hz (the slice sums to 3). -/
theorem c6_firing_rate (data : List Rat) (s e : Nat) (b : Rat)
    (h : ((data.drop s).take (e - s)).length ≠ 0) :
    (cal_FR data s e b).fst
      = ((data.drop s).take (e - s)).sum
        / ((((data.drop s).take (e - s)).length : Rat) * b / 1000)
    ∧ cal_FR [1, 0, 1, 1, 0] 0 4 10 = (75, []) := by
  constructor
  · unfold cal_FR
    simp only [if_neg h]
  · unfold cal_FR
    norm_num

/-- Witness for C6 at the spec's own example input. -/
theorem c6_firing_rate_witness :
    (((([1, 0, 1, 1, 0] : List Rat).drop 0).take (4 - 0)).length ≠ 0)
    ∧ ((cal_FR [1, 0, 1, 1, 0] 0 4 10).fst
        = ((([1, 0, 1, 1, 0] : List Rat).drop 0).take (4 - 0)).sum
          / ((((([1, 0, 1, 1, 0] : List Rat).drop 0).take (4 - 0)).length : Rat) * 10 / 1000)
        ∧ cal_FR [1, 0, 1, 1, 0] 0 4 10 = (75, [])) :=
  ⟨by decide, c6_firing_rate [1, 0, 1, 1, 0] 0 4 10 (by decide)⟩

/-- Claim C7: on an empty slice, `cal_FR` returns 0 and emits exactly one
warning, the start-≥-end message when `start_time ≥ end_time` and the
distinct empty-window message otherwise. -/
theorem c7_empty_window (data : List Rat) (s e : Nat) (b : Rat)
    (h : ((data.drop s).take (e - s)).length = 0) :
    cal_FR data s e b
      = (0, if s ≥ e then [Warning.startGeEnd s e] else [Warning.emptyWindow])
    ∧ (cal_FR data s e b).snd.length = 1
    ∧ Warning.startGeEnd s e ≠ Warning.emptyWindow := by
  have h1 : cal_FR data s e b
      = (0, if s ≥ e then [Warning.startGeEnd s e] else [Warning.emptyWindow]) := by
    unfold cal_FR
    by_cases hc : s ≥ e
    · simp only [if_pos h, if_pos hc]
    · simp only [if_pos h, if_neg hc]
  refine ⟨h1, ?_, ?_⟩
  · rw [h1]
    by_cases hc : s ≥ e
    · simp [hc]
    · simp [hc]
  · intro hne
    exact Warning.noConfusion hne

/-- Witness for C7, covering both degenerate cases: an empty input with
`start < end` (empty-window message) and `start ≥ end` on non-empty data
(start-≥-end message). -/
theorem c7_empty_window_witness :
    (((([] : List Rat).drop 0).take (5 - 0)).length = 0
      ∧ cal_FR [] 0 5 1
          = (0, if 0 ≥ 5 then [Warning.startGeEnd 0 5] else [Warning.emptyWindow])
      ∧ (cal_FR [] 0 5 1).snd.length = 1
      ∧ Warning.startGeEnd 0 5 ≠ Warning.emptyWindow)
    ∧ (((([1, 2, 3] : List Rat).drop 5).take (2 - 5)).length = 0
      ∧ cal_FR [1, 2, 3] 5 2 1
          = (0, if 5 ≥ 2 then [Warning.startGeEnd 5 2] else [Warning.emptyWindow])
      ∧ (cal_FR [1, 2, 3] 5 2 1).snd.length = 1
      ∧ Warning.startGeEnd 5 2 ≠ Warning.emptyWindow) :=
  ⟨⟨by decide, c7_empty_window [] 0 5 1 (by decide)⟩,
   ⟨by decide, c7_empty_window [1, 2, 3] 5 2 1 (by decide)⟩⟩

/-- Inserting a row keeps the multiset of rows: the insertion step of the
embedded sort is a permutation. -/
theorem orderedInsertTrial_perm (a : TrialRow) (l : List TrialRow) :
    (orderedInsertTrial a l).Perm (a :: l) := by
  induction l with
  | nil => exact List.Perm.refl _
  | cons b t ih =>
    unfold orderedInsertTrial
    by_cases hc : a.trialNum ≤ b.trialNum
    · rw [if_pos hc]
    · rw [if_neg hc]
      exact (ih.cons b).trans (List.Perm.swap a b t)

/-- The embedded `sort_values(by='trialNum')` permutes its input. -/
theorem sortByTrialNum_perm (l : List TrialRow) : (sortByTrialNum l).Perm l := by
  induction l with
  | nil => exact List.Perm.refl _
  | cons b t ih =>
    unfold sortByTrialNum
    exact (orderedInsertTrial_perm b (sortByTrialNum t)).trans (ih.cons b)

/-- The contiguous trial-number sequence `1, 2, ..., K` as integers. -/
def ascList (K : Nat) : List Int := (List.range' 1 K).map (fun n : Nat => (n : Int))

theorem ascList_length (K : Nat) : (ascList K).length = K := by
  simp [ascList]

theorem ascList_pairwise (K : Nat) : (ascList K).Pairwise (fun a b => a < b) := by
  unfold ascList
  rw [List.pairwise_map]
  exact (List.pairwise_lt_range' 1 K).imp (fun h => by exact_mod_cast h)

theorem ascList_mem (K : Nat) (k : Int) : k ∈ ascList K ↔ 1 ≤ k ∧ k ≤ (K : Int) := by
  unfold ascList
  simp only [List.mem_map, List.mem_range'_1]
  constructor
  · rintro ⟨n, ⟨h1, h2⟩, rfl⟩
    omega
  · rintro ⟨h1, h2⟩
    refine ⟨k.toNat, ⟨by omega, by omega⟩, by omega⟩

/-- Adjacent differences along `a, a+1, ..., a+K-1` are all 1. -/
theorem contiguousB_range (K : Nat) : ∀ a : Nat,
    contiguousB ((List.range' a K).map (fun n : Nat => (n : Int))) = true := by
  induction K with
  | zero => intro a; rfl
  | succ K ih =>
    intro a
    rw [List.range'_succ]
    cases K with
    | zero => rfl
    | succ K' =>
      have ih' := ih (a + 1)
      rw [List.range'_succ] at ih'
      rw [List.range'_succ]
      simp only [List.map_cons] at ih' ⊢
      have hstep : (((a + 1 : Nat) : Int) - (a : Nat) == 1) = true := by
        rw [beq_iff_eq]
        push_cast
        omega
      unfold contiguousB
      rw [Bool.and_eq_true]
      exact ⟨hstep, ih'⟩

theorem contiguousB_ascList (K : Nat) : contiguousB (ascList K) = true :=
  contiguousB_range K 1

/-- A clean `1..K` sequence with `K ≥ 1` triggers neither the bad-start nor
the non-contiguity warning. -/
theorem trialWarns_ascList (s : String) (K : Nat) (hK : 1 ≤ K) :
    trialWarns s (ascList K) = [] := by
  obtain ⟨K', rfl⟩ : ∃ K', K = K' + 1 := ⟨K - 1, by omega⟩
  have hhead : ascList (K' + 1) = (1 : Int) :: (List.range' 2 K').map (fun n : Nat => (n : Int)) := by
    unfold ascList
    rw [List.range'_succ]
    simp
  have hc : contiguousB ((1 : Int) :: (List.range' 2 K').map (fun n : Nat => (n : Int))) = true := by
    rw [← hhead]
    exact contiguousB_ascList (K' + 1)
  unfold trialWarns
  rw [hhead]
  simp [hc]

/-- Unfolding of the selectors on a session that has data. -/
theorem getTrialsBy_ne (target : Int) (data : TrialTable) (sname : String)
    (h : (data.filter (fun r => r.session == sname)).isEmpty = false) :
    getTrialsBy target data sname
      = (trialKeys target (sortByTrialNum (data.filter (fun r => r.session == sname))),
         trialWarns sname
           ((sortByTrialNum (data.filter (fun r => r.session == sname))).map
             (fun r => r.trialNum))) := by
  unfold getTrialsBy
  simp only [h, Bool.false_eq_true, if_false]

/-- A session whose sorted trial numbers are `1..K` with `K ≥ 1` is
non-empty. -/
theorem clean_isEmpty_false (data : TrialTable) (sname : String) (K : Nat) (hK : 1 ≤ K)
    (hclean : (sortByTrialNum (data.filter (fun r => r.session == sname))).map
        (fun r => r.trialNum) = ascList K) :
    (data.filter (fun r => r.session == sname)).isEmpty = false := by
  have hlen : (sortByTrialNum (data.filter (fun r => r.session == sname))).length = K := by
    have h2 := congrArg List.length hclean
    rw [List.length_map, ascList_length] at h2
    exact h2
  have hlen2 : (data.filter (fun r => r.session == sname)).length = K := by
    rw [← (sortByTrialNum_perm (data.filter (fun r => r.session == sname))).length_eq]
    exact hlen
  cases hsd : data.filter (fun r => r.session == sname) with
  | nil =>
    rw [hsd] at hlen2
    simp at hlen2
    omega
  | cons a t => rfl

/-- Membership in the selector's output index: `k` is returned iff some
sorted row has the target outcome and trial number `k + 1`. -/
theorem mem_trialKeys (target k : Int) (l : List TrialRow) :
    k ∈ trialKeys target l ↔ ∃ r, r ∈ l ∧ r.correct = target ∧ r.trialNum = k + 1 := by
  unfold trialKeys
  simp only [List.mem_map, List.mem_filter, beq_iff_eq]
  constructor
  · rintro ⟨r, ⟨hr, hc⟩, hk⟩
    exact ⟨r, hr, hc, by omega⟩
  · rintro ⟨r, hr, hc, hk⟩
    exact ⟨r, ⟨hr, hc⟩, by omega⟩

/-- Core of claim C2, for an arbitrary target class: on a clean `1..K`
session the selector warns nothing, returns exactly the multiset of keys
`trialNum - 1` over the session's records of the target class, and the
returned keys are strictly ascending. -/
theorem getTrialsBy_clean (target : Int) (data : TrialTable) (sname : String) (K : Nat)
    (hK : 1 ≤ K)
    (hclean : (sortByTrialNum (data.filter (fun r => r.session == sname))).map
        (fun r => r.trialNum) = ascList K) :
    (getTrialsBy target data sname).snd = []
    ∧ (getTrialsBy target data sname).fst.Perm
        (((data.filter (fun r => r.session == sname)).filter
            (fun r => r.correct == target)).map (fun r => r.trialNum - 1))
    ∧ (getTrialsBy target data sname).fst.Pairwise (fun a b => a < b) := by
  have hne := clean_isEmpty_false data sname K hK hclean
  rw [getTrialsBy_ne target data sname hne]
  refine ⟨?_, ?_, ?_⟩
  · rw [hclean]
    exact trialWarns_ascList sname K hK
  · unfold trialKeys
    exact ((sortByTrialNum_perm (data.filter (fun r => r.session == sname))).filter
      (fun r => r.correct == target)).map (fun r => r.trialNum - 1)
  · unfold trialKeys
    have hp : (sortByTrialNum (data.filter (fun r => r.session == sname))).Pairwise
        (fun a b => a.trialNum < b.trialNum) := by
      have hpl := ascList_pairwise K
      rw [← hclean] at hpl
      exact (List.pairwise_map).mp hpl
    rw [List.pairwise_map]
    refine List.Pairwise.imp ?_ (hp.filter (fun r => r.correct == target))
    intro a b h
    dsimp only
    omega

/-- Claim C2: on a session whose sorted trial numbers are exactly `1..K`,
`get_correct_trials` (target class 1) and `get_incorrect_trials` (target
class 0) each return exactly the keys `trialNum - 1` of the session's
records of their class, in ascending order, and emit no warnings. -/
theorem c2_clean_selectors (data : TrialTable) (sname : String) (K : Nat)
    (hK : 1 ≤ K)
    (hclean : (sortByTrialNum (data.filter (fun r => r.session == sname))).map
        (fun r => r.trialNum) = ascList K) :
    ((get_correct_trials data sname).snd = []
      ∧ (get_correct_trials data sname).fst.Perm
          (((data.filter (fun r => r.session == sname)).filter
              (fun r => r.correct == 1)).map (fun r => r.trialNum - 1))
      ∧ (get_correct_trials data sname).fst.Pairwise (fun a b => a < b))
    ∧ ((get_incorrect_trials data sname).snd = []
      ∧ (get_incorrect_trials data sname).fst.Perm
          (((data.filter (fun r => r.session == sname)).filter
              (fun r => r.correct == 0)).map (fun r => r.trialNum - 1))
      ∧ (get_incorrect_trials data sname).fst.Pairwise (fun a b => a < b)) :=
  ⟨getTrialsBy_clean 1 data sname K hK hclean, getTrialsBy_clean 0 data sname K hK hclean⟩

/-- Session name of the C2 witness fixture. -/
def c2S : String := "session_03"

/-- Trial-table fixture for the C2 witness: one clean session `1..3` with
mixed outcomes. -/
def c2T : TrialTable :=
  [{ session := c2S, trialNum := 1, correct := 1 },
   { session := c2S, trialNum := 2, correct := 0 },
   { session := c2S, trialNum := 3, correct := 1 }]

/-- Witness for C2 on a concrete clean session. -/
theorem c2_clean_selectors_witness :
    (1 ≤ 3
      ∧ (sortByTrialNum (c2T.filter (fun r => r.session == c2S))).map
          (fun r => r.trialNum) = ascList 3)
    ∧ (((get_correct_trials c2T c2S).snd = []
      ∧ (get_correct_trials c2T c2S).fst.Perm
          (((c2T.filter (fun r => r.session == c2S)).filter
              (fun r => r.correct == 1)).map (fun r => r.trialNum - 1))
      ∧ (get_correct_trials c2T c2S).fst.Pairwise (fun a b => a < b))
    ∧ ((get_incorrect_trials c2T c2S).snd = []
      ∧ (get_incorrect_trials c2T c2S).fst.Perm
          (((c2T.filter (fun r => r.session == c2S)).filter
              (fun r => r.correct == 0)).map (fun r => r.trialNum - 1))
      ∧ (get_incorrect_trials c2T c2S).fst.Pairwise (fun a b => a < b))) :=
  ⟨⟨by decide, by decide⟩, c2_clean_selectors c2T c2S 3 (by decide) (by decide)⟩

/-- Claim C5: for a clean `1..K` session over a schema-conforming table
(the spec's data model fixes `correct ∈ {0,1}`), the key sets returned by
the two selectors partition `{0, ..., K-1}`: their union is exactly that
range and their intersection is empty. -/
theorem c5_partition (data : TrialTable) (sname : String) (K : Nat)
    (hclean : (sortByTrialNum (data.filter (fun r => r.session == sname))).map
        (fun r => r.trialNum) = ascList K)
    (hb : ∀ r ∈ data, r.session = sname → r.correct = 0 ∨ r.correct = 1) :
    (∀ k : Int,
      (k ∈ (get_correct_trials data sname).fst ∨ k ∈ (get_incorrect_trials data sname).fst)
        ↔ (0 ≤ k ∧ k < (K : Int)))
    ∧ ∀ k : Int,
        ¬(k ∈ (get_correct_trials data sname).fst
          ∧ k ∈ (get_incorrect_trials data sname).fst) := by
  by_cases hemp : (data.filter (fun r => r.session == sname)).isEmpty
  · have hnil : data.filter (fun r => r.session == sname) = [] := by
      cases hsd : data.filter (fun r => r.session == sname) with
      | nil => rfl
      | cons a t =>
        rw [hsd] at hemp
        exact absurd hemp (by simp)
    have hK0 : K = 0 := by
      rw [hnil] at hclean
      have hlen := congrArg List.length hclean
      rw [List.length_map, ascList_length] at hlen
      simpa [sortByTrialNum] using hlen.symm
    have hsel : ∀ target : Int, getTrialsBy target data sname = ([], [Warning.noData sname]) := by
      intro target
      unfold getTrialsBy
      simp only [hemp, if_true]
    subst hK0
    constructor
    · intro k
      simp [get_correct_trials, get_incorrect_trials, hsel 1, hsel 0]
    · intro k
      simp [get_correct_trials, get_incorrect_trials, hsel 1, hsel 0]
  · have hne : (data.filter (fun r => r.session == sname)).isEmpty = false := by
      simpa using hemp
    have hfst : ∀ t : Int, (getTrialsBy t data sname).fst
        = trialKeys t (sortByTrialNum (data.filter (fun r => r.session == sname))) := by
      intro t
      rw [getTrialsBy_ne t data sname hne]
    have hmemnum : ∀ r ∈ sortByTrialNum (data.filter (fun rr => rr.session == sname)),
        1 ≤ r.trialNum ∧ r.trialNum ≤ (K : Int) := by
      intro r hr
      have hmm : r.trialNum ∈ ascList K := by
        rw [← hclean]
        exact List.mem_map_of_mem (fun rr => rr.trialNum) hr
      exact (ascList_mem K r.trialNum).mp hmm
    have hex : ∀ k : Int, 0 ≤ k → k < (K : Int) →
        ∃ r, r ∈ sortByTrialNum (data.filter (fun rr => rr.session == sname))
          ∧ r.trialNum = k + 1 := by
      intro k h0 hKk
      have hmm : (k + 1) ∈ ascList K := (ascList_mem K (k + 1)).mpr ⟨by omega, by omega⟩
      rw [← hclean] at hmm
      obtain ⟨r, hr, hr2⟩ := List.mem_map.mp hmm
      exact ⟨r, hr, hr2⟩
    have hb' : ∀ r ∈ sortByTrialNum (data.filter (fun rr => rr.session == sname)),
        r.correct = 0 ∨ r.correct = 1 := by
      intro r hr
      have hrsd : r ∈ data.filter (fun rr => rr.session == sname) :=
        ((sortByTrialNum_perm (data.filter (fun rr => rr.session == sname))).mem_iff).mp hr
      have hrd := List.mem_filter.mp hrsd
      exact hb r hrd.1 (by simpa using hrd.2)
    have hnodup : (sortByTrialNum (data.filter (fun rr => rr.session == sname))).Pairwise
        (fun a b => a.trialNum ≠ b.trialNum) := by
      have hpl := ascList_pairwise K
      rw [← hclean] at hpl
      exact ((List.pairwise_map).mp hpl).imp (fun h => ne_of_lt h)
    constructor
    · intro k
      simp only [get_correct_trials, get_incorrect_trials]
      rw [hfst 1, hfst 0, mem_trialKeys, mem_trialKeys]
      constructor
      · rintro (⟨r, hr, hc, hrn⟩ | ⟨r, hr, hc, hrn⟩) <;>
          (have hbd := hmemnum r hr; omega)
      · rintro ⟨h0, hKk⟩
        obtain ⟨r, hr, hrn⟩ := hex k h0 hKk
        rcases hb' r hr with hc | hc
        · exact Or.inr ⟨r, hr, hc, hrn⟩
        · exact Or.inl ⟨r, hr, hc, hrn⟩
    · intro k
      simp only [get_correct_trials, get_incorrect_trials]
      rw [hfst 1, hfst 0, mem_trialKeys, mem_trialKeys]
      rintro ⟨⟨r1, hr1, hc1, hn1⟩, ⟨r2, hr2, hc2, hn2⟩⟩
      have hne12 : r1 ≠ r2 := by
        intro heq
        rw [heq] at hc1
        omega
      have hneq := hnodup.forall (fun a b h => h.symm) hr1 hr2 hne12
      omega

/-- Session name of the C5 witness fixture. -/
def c5S : String := "session_07"

/-- Trial-table fixture for the C5 witness: a clean `1..2` session with one
correct and one incorrect trial. -/
def c5T : TrialTable :=
  [{ session := c5S, trialNum := 1, correct := 1 },
   { session := c5S, trialNum := 2, correct := 0 }]

/-- Witness for C5 on a concrete clean session, instantiated at keys 0
and 1. -/
theorem c5_partition_witness :
    ((sortByTrialNum (c5T.filter (fun r => r.session == c5S))).map
        (fun r => r.trialNum) = ascList 2)
    ∧ (∀ r ∈ c5T, r.session = c5S → r.correct = 0 ∨ r.correct = 1)
    ∧ (((0 : Int) ∈ (get_correct_trials c5T c5S).fst
          ∨ (0 : Int) ∈ (get_incorrect_trials c5T c5S).fst)
        ↔ (0 ≤ (0 : Int) ∧ (0 : Int) < ((2 : Nat) : Int)))
    ∧ ¬((1 : Int) ∈ (get_correct_trials c5T c5S).fst
        ∧ (1 : Int) ∈ (get_incorrect_trials c5T c5S).fst) :=
  ⟨by decide, by decide,
   (c5_partition c5T c5S 2 (by decide) (by decide)).1 0,
   (c5_partition c5T c5S 2 (by decide) (by decide)).2 1⟩

/-- Claim C9: on a session whose sorted trial numbers are `[1,2,2,4]`
(a duplicate plus a gap, two adjacent-pair violations), each selector emits
exactly one warning — the single non-contiguity warning — and the returned
keys are `trialNum - 1` of each selected record, derived purely from
`trialNum` and not from sort position. -/
theorem c9_dup_gap (data : TrialTable) (sname : String)
    (hs : (sortByTrialNum (data.filter (fun r => r.session == sname))).map
        (fun r => r.trialNum) = [1, 2, 2, 4]) :
    (get_correct_trials data sname).snd = [Warning.nonContiguous sname]
    ∧ (get_incorrect_trials data sname).snd = [Warning.nonContiguous sname]
    ∧ (get_correct_trials data sname).fst
        = ((sortByTrialNum (data.filter (fun r => r.session == sname))).filter
            (fun r => r.correct == 1)).map (fun r => r.trialNum - 1)
    ∧ (get_incorrect_trials data sname).fst
        = ((sortByTrialNum (data.filter (fun r => r.session == sname))).filter
            (fun r => r.correct == 0)).map (fun r => r.trialNum - 1) := by
  have hne : (data.filter (fun r => r.session == sname)).isEmpty = false := by
    cases hsd : data.filter (fun r => r.session == sname) with
    | nil =>
      rw [hsd] at hs
      simp [sortByTrialNum] at hs
    | cons a t => rfl
  have hw : trialWarns sname
      ((sortByTrialNum (data.filter (fun r => r.session == sname))).map (fun r => r.trialNum))
      = [Warning.nonContiguous sname] := by
    rw [hs]
    rfl
  refine ⟨?_, ?_, ?_, ?_⟩
  · unfold get_correct_trials
    rw [getTrialsBy_ne 1 data sname hne]
    exact hw
  · unfold get_incorrect_trials
    rw [getTrialsBy_ne 0 data sname hne]
    exact hw
  · unfold get_correct_trials
    rw [getTrialsBy_ne 1 data sname hne]
    rfl
  · unfold get_incorrect_trials
    rw [getTrialsBy_ne 0 data sname hne]
    rfl

/-- Session name of the C9 witness fixture. -/
def c9S : String := "session_09"

/-- Trial-table fixture for the C9 witness: trial numbers `[1,2,2,4]`, all
trials correct, so both duplicate records pass the outcome filter. -/
def c9T : TrialTable :=
  [{ session := c9S, trialNum := 1, correct := 1 },
   { session := c9S, trialNum := 2, correct := 1 },
   { session := c9S, trialNum := 2, correct := 1 },
   { session := c9S, trialNum := 4, correct := 1 }]

/-- Witness for C9: concretely, the selector emits one warning and returns
`[0, 1, 1, 3]`, with the duplicate key 1 appearing twice. -/
theorem c9_dup_gap_witness :
    ((sortByTrialNum (c9T.filter (fun r => r.session == c9S))).map
        (fun r => r.trialNum) = [1, 2, 2, 4])
    ∧ ((get_correct_trials c9T c9S).snd = [Warning.nonContiguous c9S]
      ∧ (get_incorrect_trials c9T c9S).snd = [Warning.nonContiguous c9S]
      ∧ (get_correct_trials c9T c9S).fst
          = ((sortByTrialNum (c9T.filter (fun r => r.session == c9S))).filter
              (fun r => r.correct == 1)).map (fun r => r.trialNum - 1)
      ∧ (get_incorrect_trials c9T c9S).fst
          = ((sortByTrialNum (c9T.filter (fun r => r.session == c9S))).filter
              (fun r => r.correct == 0)).map (fun r => r.trialNum - 1))
    ∧ (get_correct_trials c9T c9S).fst = [0, 1, 1, 3] :=
  ⟨by decide, c9_dup_gap c9T c9S (by decide), by decide⟩

/-- Python/pandas positional indexing with negative-index wrap-around
(`iloc` and numpy fancy indexing agree on it): `-k` addresses `len - k`;
anything out of range raises `IndexError`, embedded as an error. -/
def pyIdx {α : Type} (l : List α) (i : Int) : Except String α :=
  let j : Int := if i < 0 then i + l.length else i
  if h : 0 ≤ j ∧ j < (l.length : Int) then
    .ok (l.get ⟨j.toNat, by omega⟩)
  else
    .error ("positional index out of bounds")

/-- Positional selection by a list of indices: `df.iloc[idx]` on a
session slice and numpy fancy indexing `matrix[idx]` along the trial
axis. -/
def pyFancy {α : Type} (l : List α) (idx : List Int) : Except String (List α) :=
  idx.mapM (fun i => pyIdx l i)

/-- The aggregator's running state: the array store plus the four running
outputs of `get_correct_df` / `get_incorrect_df`. -/
structure AggState where
  heap : Heap
  unitsNew : UnitTable
  trialsNew : TrialTable
  numSel : List Nat
  numTot : List Nat
deriving DecidableEq

/-- The inner loop `for ind in units_cur_session.index:` of the
aggregators: at each position, read the row's spike matrix from the store,
fancy-index it with the session's key set (allocating a fresh array),
overwrite the working slice's cell with the new reference
(`.at[ind,'spkMtx'] = new_filtered_matrix`), then — faithfully to the
source, where the `pd.concat` sits inside this inner loop — append the
whole current working slice to the running output unit table. -/
def unitLoop (keys : List Int) :
    Nat → Nat → Heap → UnitTable → UnitTable →
      Except String (Heap × UnitTable × UnitTable)
  | 0, _, heap, slice, units_new => .ok (heap, slice, units_new)
  | n + 1, pos, heap, slice, units_new =>
    match slice[pos]? with
    | none => .error ("row label not found")
    | some row =>
      match heap[row.spkMtx]? with
      | none => .error ("dangling array reference")
      | some original_matrix =>
        match pyFancy original_matrix keys with
        | .error e => .error e
        | .ok new_filtered_matrix =>
          let slice2 := slice.set pos { row with spkMtx := heap.length }
          unitLoop keys n (pos + 1) (heap ++ [new_filtered_matrix]) slice2
            (units_new ++ slice2)

/-- One iteration of the 27-session loop of `get_correct_df` /
`get_incorrect_df` (parameterised by the target class): slice both tables
to the session, run the selector on the full trial table, record the
selected count and the slice's total count, reduce the trial slice
positionally by the key set, and run the unit loop. -/
def sessionStep (target : Int) (units : UnitTable) (trials : TrialTable)
    (st : AggState) (sname : String) : Except String AggState :=
  let units_cur_session := units.filter (fun r => r.session == sname)
  let trials_cur_session := trials.filter (fun r => r.session == sname)
  let keys := (getTrialsBy target trials sname).fst
  let numSel2 := st.numSel ++ [keys.length]
  let numTot2 := st.numTot ++ [trials_cur_session.length]
  match pyFancy trials_cur_session keys with
  | .error e => .error e
  | .ok trials_sel =>
    let trialsNew2 := st.trialsNew ++ trials_sel
    match unitLoop keys units_cur_session.length 0 st.heap units_cur_session
        st.unitsNew with
    | .error e => .error e
    | .ok res =>
      .ok { heap := res.1, unitsNew := res.2.2, trialsNew := trialsNew2,
            numSel := numSel2, numTot := numTot2 }

/-- The session loop, sequentially over the configured session names. -/
def aggLoop (target : Int) (units : UnitTable) (trials : TrialTable) :
    List String → AggState → Except String AggState
  | [], st => .ok st
  | sname :: rest, st =>
    match sessionStep target units trials st sname with
    | .error e => .error e
    | .ok st2 => aggLoop target units trials rest st2

/-- `f"session_{i:02d}"`, for the indices in use (`i < 100`). -/
def sessionName (i : Nat) : String :=
  if i < 10 then ("session_0" ++ toString i) else ("session_" ++ toString i)

/-- The fixed 27-session universe of the aggregators. -/
def sessionNameList : List String := (List.range 27).map sessionName

/-- Common body of `get_correct_df` (target 1) and `get_incorrect_df`
(target 0); the two Python functions are verbatim copies of each other
except for the selector they call. -/
def buildDf (target : Int) (heap : Heap) (units : UnitTable) (trials : TrialTable) :
    Except String AggState :=
  aggLoop target units trials sessionNameList
    { heap := heap, unitsNew := [], trialsNew := [], numSel := [], numTot := [] }

/-- Embedding of `Data_cleaner.get_correct_df`. -/
def get_correct_df (heap : Heap) (units : UnitTable) (trials : TrialTable) :
    Except String AggState :=
  buildDf 1 heap units trials

/-- Embedding of `Data_cleaner.get_incorrect_df`. -/
def get_incorrect_df (heap : Heap) (units : UnitTable) (trials : TrialTable) :
    Except String AggState :=
  buildDf 0 heap units trials

/-- `heapLe h h2`: the store `h2` extends `h` — every array present in `h`
is still at its index with unchanged contents. -/
def heapLe (h h2 : Heap) : Prop := h2.take h.length = h

theorem heapLe_refl (h : Heap) : heapLe h h := by
  simp [heapLe]

theorem heapLe_append (h l : Heap) : heapLe h (h ++ l) := by
  unfold heapLe
  exact List.take_left h l

theorem heapLe_trans (a b c : Heap) (h1 : heapLe a b) (h2 : heapLe b c) :
    heapLe a c := by
  unfold heapLe at h1 h2 ⊢
  have hab : a.length ≤ b.length := by
    have hl := congrArg List.length h1
    rw [List.length_take] at hl
    omega
  have hsplit : c.take a.length = (c.take b.length).take a.length := by
    rw [List.take_take, min_eq_left hab]
  rw [hsplit, h2, h1]

/-- The unit loop only allocates: the store it is given survives as a
prefix of the store it returns. -/
theorem unitLoop_heapLe (keys : List Int) :
    ∀ (n pos : Nat) (heap : Heap) (slice units_new : UnitTable)
      (res : Heap × UnitTable × UnitTable),
      unitLoop keys n pos heap slice units_new = .ok res → heapLe heap res.1 := by
  intro n
  induction n with
  | zero =>
    intro pos heap slice units_new res hok
    unfold unitLoop at hok
    injection hok with h
    rw [← h]
    exact heapLe_refl heap
  | succ n ih =>
    intro pos heap slice units_new res hok
    unfold unitLoop at hok
    split at hok
    · exact Except.noConfusion hok
    · split at hok
      · exact Except.noConfusion hok
      · split at hok
        · exact Except.noConfusion hok
        · next new_filtered_matrix hpf =>
            exact heapLe_trans heap (heap ++ [new_filtered_matrix]) res.1
              (heapLe_append heap [new_filtered_matrix]) (ih _ _ _ _ _ hok)

/-- A successful session step extends the store and appends exactly the
selected-trial count and the session slice's total count. -/
theorem sessionStep_ok (target : Int) (units : UnitTable) (trials : TrialTable)
    (st : AggState) (sname : String) (st2 : AggState)
    (hok : sessionStep target units trials st sname = .ok st2) :
    heapLe st.heap st2.heap
    ∧ st2.numSel = st.numSel ++ [(getTrialsBy target trials sname).fst.length]
    ∧ st2.numTot = st.numTot ++ [(trials.filter (fun r => r.session == sname)).length] := by
  unfold sessionStep at hok
  dsimp only at hok
  split at hok
  · exact Except.noConfusion hok
  · split at hok
    · exact Except.noConfusion hok
    · next res hres =>
        injection hok with h
        rw [← h]
        exact ⟨unitLoop_heapLe _ _ _ _ _ _ res hres, rfl, rfl⟩

/-- A successful aggregation run extends the store and produces the
per-session count sequences of the visited session names, appended to the
accumulator's. -/
theorem aggLoop_ok (target : Int) (units : UnitTable) (trials : TrialTable) :
    ∀ (L : List String) (st : AggState) (r : AggState),
      aggLoop target units trials L st = .ok r →
      heapLe st.heap r.heap
      ∧ r.numSel = st.numSel ++ L.map (fun s => (getTrialsBy target trials s).fst.length)
      ∧ r.numTot = st.numTot
          ++ L.map (fun s => (trials.filter (fun rr => rr.session == s)).length) := by
  intro L
  induction L with
  | nil =>
    intro st r hok
    unfold aggLoop at hok
    injection hok with h
    rw [← h]
    exact ⟨heapLe_refl _, by simp, by simp⟩
  | cons sname rest ih =>
    intro st r hok
    unfold aggLoop at hok
    split at hok
    · exact Except.noConfusion hok
    · next st2 hstep =>
        obtain ⟨hh, hsel, htot⟩ := sessionStep_ok target units trials st sname st2 hstep
        obtain ⟨hh2, hsel2, htot2⟩ := ih st2 r hok
        refine ⟨heapLe_trans _ _ _ hh hh2, ?_, ?_⟩
        · rw [hsel2, hsel]
          simp
        · rw [htot2, htot]
          simp

/-- Splitting a list by a binary outcome flag splits its length. -/
theorem filter_length_partition : ∀ l : List TrialRow,
    (∀ r ∈ l, r.correct = 0 ∨ r.correct = 1) →
    (l.filter (fun r => r.correct == 1)).length
      + (l.filter (fun r => r.correct == 0)).length = l.length := by
  intro l
  induction l with
  | nil => intro _; rfl
  | cons a t ih =>
    intro hb
    have ht := ih (fun r hr => hb r (List.mem_cons_of_mem a hr))
    rcases hb a (List.mem_cons_self a t) with hc | hc <;>
      · simp [List.filter_cons, hc]
        omega

/-- Per session, the selected counts of the two target classes sum to the
session slice's row count, given schema-conforming outcome flags. -/
theorem counts_sum_session (trials : TrialTable) (sname : String)
    (hb : ∀ r ∈ trials, r.correct = 0 ∨ r.correct = 1) :
    (getTrialsBy 1 trials sname).fst.length + (getTrialsBy 0 trials sname).fst.length
      = (trials.filter (fun r => r.session == sname)).length := by
  by_cases hemp : (trials.filter (fun r => r.session == sname)).isEmpty
  · have hnil : trials.filter (fun r => r.session == sname) = [] := by
      cases hsd : trials.filter (fun r => r.session == sname) with
      | nil => rfl
      | cons a t =>
        rw [hsd] at hemp
        exact absurd hemp (by simp)
    unfold getTrialsBy
    simp [hemp, hnil]
  · have hne : (trials.filter (fun r => r.session == sname)).isEmpty = false := by
      simpa using hemp
    rw [getTrialsBy_ne 1 trials sname hne, getTrialsBy_ne 0 trials sname hne]
    unfold trialKeys
    rw [List.length_map, List.length_map,
      ← (sortByTrialNum_perm (trials.filter (fun r => r.session == sname))).length_eq]
    have hb2 : ∀ r ∈ sortByTrialNum (trials.filter (fun rr => rr.session == sname)),
        r.correct = 0 ∨ r.correct = 1 := by
      intro r hr
      exact hb r (List.mem_filter.mp
        ((sortByTrialNum_perm (trials.filter (fun rr => rr.session == sname))).mem_iff.mp hr)).1
    exact filter_length_partition _ hb2

/-- Position `i` of a per-session sequence built over the 27-session
universe. -/
theorem getD_map_sessionList (f : String → Nat) (i : Nat) (hi : i < 27) :
    (sessionNameList.map f).getD i 0 = f (sessionName i) := by
  unfold sessionNameList
  rw [List.map_map, List.getD_eq_getElem?_getD, List.getElem?_map,
    List.getElem?_range hi]
  rfl

/-- Claim C4: over the same inputs with schema-conforming outcome flags,
whenever both aggregators return, each session position's correct count
plus incorrect count equals that session's recorded total-trial count, and
the two total-trial sequences agree. -/
theorem c4_counts_sum (heap : Heap) (units : UnitTable) (trials : TrialTable)
    (hb : ∀ r ∈ trials, r.correct = 0 ∨ r.correct = 1)
    (r1 r2 : AggState)
    (h1 : get_correct_df heap units trials = .ok r1)
    (h2 : get_incorrect_df heap units trials = .ok r2) :
    (∀ i, i < 27 → r1.numSel.getD i 0 + r2.numSel.getD i 0 = r1.numTot.getD i 0)
    ∧ r1.numTot = r2.numTot := by
  obtain ⟨-, hsel1, htot1⟩ := aggLoop_ok 1 units trials sessionNameList _ r1 h1
  obtain ⟨-, hsel2, htot2⟩ := aggLoop_ok 0 units trials sessionNameList _ r2 h2
  rw [List.nil_append] at hsel1 htot1 hsel2 htot2
  constructor
  · intro i hi
    rw [hsel1, hsel2, htot1, getD_map_sessionList _ i hi, getD_map_sessionList _ i hi,
      getD_map_sessionList _ i hi]
    exact counts_sum_session trials (sessionName i) hb
  · rw [htot1, htot2]

/-- Output of both aggregators on empty inputs, used by witnesses. -/
def emptyAgg : AggState :=
  { heap := [], unitsNew := [], trialsNew := [],
    numSel := List.replicate 27 0, numTot := List.replicate 27 0 }

/-- Recover an `Except`-level equation from its decidable `Option` form. -/
theorem exceptOk_of_toOption {α : Type} (v : Except String α) (a : α)
    (h : v.toOption = some a) : v = Except.ok a := by
  cases v with
  | error e => simp [Except.toOption] at h
  | ok b =>
    simp [Except.toOption] at h
    rw [h]

/-- Witness for C4 on concrete (empty) inputs, instantiated at session
position 5. -/
theorem c4_counts_sum_witness :
    get_correct_df [] [] [] = Except.ok emptyAgg
    ∧ get_incorrect_df [] [] [] = Except.ok emptyAgg
    ∧ emptyAgg.numSel.getD 5 0 + emptyAgg.numSel.getD 5 0 = emptyAgg.numTot.getD 5 0
    ∧ emptyAgg.numTot = emptyAgg.numTot := by
  have h1 : get_correct_df [] [] [] = Except.ok emptyAgg :=
    exceptOk_of_toOption _ _ (by decide)
  have h2 : get_incorrect_df [] [] [] = Except.ok emptyAgg :=
    exceptOk_of_toOption _ _ (by decide)
  have hb : ∀ r ∈ ([] : TrialTable), r.correct = 0 ∨ r.correct = 1 := by simp
  have hc := c4_counts_sum [] [] [] hb emptyAgg emptyAgg h1 h2
  exact ⟨h1, h2, hc.1 5 (by omega), hc.2⟩

/-- Claim C10: neither aggregator mutates any array that existed in the
caller's store — the input store survives as a prefix of the output store,
so every pre-existing `spkMtx` reference resolves to identical contents.
Input tables are immutable values of the embedding, reflecting the pandas
copy semantics of boolean-mask slicing (each per-session working slice is
a fresh frame, never aliasing the caller's table or another session's
slice), and the selectors read but never write their inputs. -/
theorem c10_no_input_mutation (heap : Heap) (units : UnitTable) (trials : TrialTable)
    (r1 r2 : AggState)
    (h1 : get_correct_df heap units trials = .ok r1)
    (h2 : get_incorrect_df heap units trials = .ok r2) :
    (r1.heap.take heap.length = heap ∧ r2.heap.take heap.length = heap)
    ∧ ∀ i, i < heap.length →
        r1.heap.getD i [] = heap.getD i [] ∧ r2.heap.getD i [] = heap.getD i [] := by
  have hle1 : heapLe heap r1.heap := (aggLoop_ok 1 units trials sessionNameList _ r1 h1).1
  have hle2 : heapLe heap r2.heap := (aggLoop_ok 0 units trials sessionNameList _ r2 h2).1
  have hpoint : ∀ (rh : Heap), rh.take heap.length = heap →
      ∀ i, i < heap.length → rh.getD i [] = heap.getD i [] := by
    intro rh hrh i hi
    have h3 : heap[i]? = rh[i]? := by
      conv_lhs => rw [← hrh]
      rw [List.getElem?_take]
      simp [hi]
    rw [List.getD_eq_getElem?_getD, List.getD_eq_getElem?_getD, h3]
  exact ⟨⟨hle1, hle2⟩, fun i hi => ⟨hpoint r1.heap hle1 i hi, hpoint r2.heap hle2 i hi⟩⟩

/-- Witness for C10 on concrete (empty) inputs. -/
theorem c10_no_input_mutation_witness :
    get_correct_df [] [] [] = Except.ok emptyAgg
    ∧ get_incorrect_df [] [] [] = Except.ok emptyAgg
    ∧ (emptyAgg.heap.take ([] : Heap).length = ([] : Heap)
        ∧ emptyAgg.heap.take ([] : Heap).length = ([] : Heap)) := by
  have h1 : get_correct_df [] [] [] = Except.ok emptyAgg :=
    exceptOk_of_toOption _ _ (by decide)
  have h2 : get_incorrect_df [] [] [] = Except.ok emptyAgg :=
    exceptOk_of_toOption _ _ (by decide)
  exact ⟨h1, h2, (c10_no_input_mutation [] [] [] emptyAgg emptyAgg h1 h2).1⟩

/-- Original spike matrix of the C1 fixture: slice 0 belongs to trial 1 and
slice 1 to trial 2, the data model's fundamental alignment. -/
def c1Mtx : SpkMtx := [[10], [20]]

/-- Store of the C1 fixture. -/
def c1Heap : Heap := [c1Mtx]

/-- Unit table of the C1 fixture: one unit of session 00. -/
def c1Units : UnitTable := [{ session := sessionName 0, spkMtx := 0 }]

/-- Trial table of the C1 fixture: session 00's records arrive with trial 2
(correct) stored before trial 1 (incorrect); the sorted trial numbers are
the clean, contiguous `[1, 2]`. -/
def c1Trials : TrialTable :=
  [{ session := sessionName 0, trialNum := 2, correct := 1 },
   { session := sessionName 0, trialNum := 1, correct := 0 }]

/-- Claim C1 fails on the code at this input, which satisfies the claim's
hypothesis (sorted trial numbers exactly `1..2`): the selected key set is
`[1]` (trial 2, the correct trial), but `get_correct_df` applies it
positionally to the *unsorted* session slice, so the single output trial
row is trial 1 with outcome flag 0, while the unit's filtered spike matrix
holds `[[20]]`, the slice of trial 2 — row 0 of the filtered trials and
slice 0 of the filtered spike matrix describe different trials. -/
theorem c1_alignment_bug :
    (sortByTrialNum (c1Trials.filter (fun r => r.session == sessionName 0))).map
        (fun r => r.trialNum) = [1, 2]
    ∧ (get_correct_trials c1Trials (sessionName 0)).fst = [1]
    ∧ (get_correct_df c1Heap c1Units c1Trials).toOption.map
        (fun st => st.trialsNew.map (fun r => (r.trialNum, r.correct))) = some [(1, 0)]
    ∧ (get_correct_df c1Heap c1Units c1Trials).toOption.map
        (fun st => st.unitsNew.map (fun u => st.heap.getD u.spkMtx [])) = some [[[20]]]
    ∧ c1Mtx.getD 1 [] = [20] ∧ c1Mtx.getD 0 [] = [10] := by
  refine ⟨by decide, by decide, by decide, by decide, by decide, by decide⟩

/-- Store of the C3 fixture: two two-trial matrices for the two units of
session 00. -/
def c3Heap : Heap := [[[1], [2]], [[3], [4]]]

/-- Unit table of the C3 fixture: two units of session 00. -/
def c3Units : UnitTable :=
  [{ session := sessionName 0, spkMtx := 0 }, { session := sessionName 0, spkMtx := 1 }]

/-- Trial table of the C3 fixture: a clean session 00 whose first trial is
correct and second is incorrect, so the key set is `[0]`. -/
def c3Trials : TrialTable :=
  [{ session := sessionName 0, trialNum := 1, correct := 1 },
   { session := sessionName 0, trialNum := 2, correct := 0 }]

/-- Claim C3 fails on the code at this input: the `pd.concat` of the unit
table sits inside the per-unit loop and appends the whole session slice
each iteration, so the 2 input unit rows produce 4 output rows, and the
second output row still carries the *unfiltered* two-trial matrix
`[[3],[4]]` of unit 1, which had not yet been processed when the slice was
first appended. -/
theorem c3_quadratic_append_bug :
    c3Units.length = 2
    ∧ (get_correct_df c3Heap c3Units c3Trials).toOption.map
        (fun st => st.unitsNew.length) = some 4
    ∧ (get_correct_df c3Heap c3Units c3Trials).toOption.map
        (fun st => st.unitsNew.map (fun u => st.heap.getD u.spkMtx []))
      = some [[[1]], [[3], [4]], [[1]], [[3]]] := by
  refine ⟨by decide, by decide, by decide⟩
